import Mathlib

/-!
Verification development for the workers benchmark (src/workers.cpp,
src/utils.hpp): a benchmark of three consumer wake-up strategies
(semaphore/blocking wait, busy poll, libuv event loop) draining a shared
MPMC queue of timestamp tokens produced by a single driver thread.

External collaborators (the MPMC queue, the hdr histogram, libuv thread and
semaphore primitives) are modelled through the contracts the code consumes:
the queue is a FIFO list of 64-bit tokens with non-blocking
enqueue/dequeue, the histogram is a sample counter plus its configuration,
the semaphore is a counter, and thread interleaving is modelled by a
small-step transition relation over the whole system state.
-/

namespace Workers

/-- NUM_THREADS, the fixed worker count (workers.cpp line 13). -/
def NUM_THREADS : Nat := 4

/-- NUM_ITERATIONS, the fixed iteration count (workers.cpp line 14). -/
def NUM_ITERATIONS : Nat := 10000000

/-- HIGHEST_TRACKABLE_VALUE = 3600LL * 1000LL * 1000LL (workers.cpp line 15). -/
def HIGHEST_TRACKABLE_VALUE : Int := 3600 * 1000 * 1000

/-- Capacity argument passed to the global MPMC queue constructor
(workers.cpp line 17). -/
def queueCapacity : Nat := 8 * 1024 * 1024

/-- The sentinel token (uint64_t)-1 on a 64-bit machine
(workers.cpp lines 118, 190, 218, 250). -/
def SENTINEL : Nat := 2 ^ 64 - 1

/-- Loop of cass::next_pow_2 (utils.hpp lines 24-31) over 64-bit size_t
values: while (next < num) \x7b next = static_cast<size_t>(1) << i++; \x7d.
The shift is a size_t shift, defined only for shift counts below 64;
executing 1 << i with i >= 64 — which the source does exactly when
num > 2^63 — is undefined behavior and is modelled as none.  The values
next and num themselves never exceed 2^63 on any defined path, so no
further wrap-around modelling is needed.  The explicit fuel only bounds
the recursion standing in for the while loop: every execution either
exits or reaches the out-of-range shift within 66 iterations, so the 70
units supplied by next_pow_2 are never exhausted (the theorems below
determine the result for every size_t input, with no fuel case left). -/
def next_pow_2_go (num : Nat) : Nat → Nat → Nat → Option Nat
  | fuel + 1, next, i =>
      if next < num then
        if i < 64 then next_pow_2_go num fuel (2 ^ i) (i + 1) else none
      else some next
  | 0, _, _ => none

/-- cass::next_pow_2 (utils.hpp lines 24-31): next starts at 2, i at 0;
some r is the value the size_t function returns, none marks the undefined
out-of-range shift (see next_pow_2_go). -/
def next_pow_2 (num : Nat) : Option Nat := next_pow_2_go num 70 2 0

/-- Configuration and sample store of an hdr_histogram, as consumed by the
benchmark (record inserts one sample; queries are external). -/
structure Histogram where
  lowest : Int
  highest : Int
  sigfig : Nat
  deriving DecidableEq

/-- hdr_init as called by the BaseWorker constructor: it fixes the
trackable range and the number of significant digits. -/
def hdr_init (lo hi : Int) (sf : Nat) : Histogram := ⟨lo, hi, sf⟩

/-- The histogram every BaseWorker is constructed with:
hdr_init(1LL, HIGHEST_TRACKABLE_VALUE, 3, histogram) (workers.cpp 20-22). -/
def baseWorkerHistogram : Histogram := hdr_init 1 HIGHEST_TRACKABLE_VALUE 3

/-- The printf format of the per-strategy throughput line
(workers.cpp line 247). -/
def throughputFormat : String :=
  "Test \"%s\": Elapsed: %f seconds, Rate: %f queues/second\n"

/-- The printf format of the per-worker percentile report emitted by
BaseWorker::dump (workers.cpp lines 43-48). -/
def dumpFormat : String :=
  "final stats (nanoseconds): min %lld max %lld median %lld 75th %lld 95th %lld 98th %lld 99th %lld 99.9th %lld mean: %f stddev: %f\n"

/-- Control location of the driver thread running run_test
(workers.cpp lines 232-259): the init loop (233-235), the production
loop (240-245), the throughput printf (246-247), the sentinel loop
(249-254), and the join loop (256-258, location fin). -/
inductive DriverPc where
  | initP : Nat → DriverPc
  | prodEnq : Nat → DriverPc
  | prodSend : Nat → DriverPc
  | printT : DriverPc
  | sentEnq : Nat → DriverPc
  | sentSend : Nat → DriverPc
  | fin : DriverPc
  deriving DecidableEq

/-- Observable state of one worker shared by the three strategies: the
number of samples recorded into its private histogram
(hdr_record_value calls), the number of sentinel tokens it has dequeued,
and whether it has observed a sentinel and finalized (dumped). -/
structure GenWorker where
  recorded : Nat
  sentinels : Nat
  done : Bool
  deriving DecidableEq

/-- One line printed to standard output: the driver's throughput line or a
worker's percentile report. -/
inductive OutLine where
  | throughput : OutLine
  | report : Nat → OutLine
  deriving DecidableEq

/-- Global state of one strategy run: driver location, the shared FIFO
queue of tokens, the workers, the lines printed so far, the send targets
dispatched so far (workers[index++ % NUM_THREADS]->send()), and the
return codes produced by the init() calls. -/
structure GenState where
  pc : DriverPc
  queue : List Nat
  workers : List GenWorker
  output : List OutLine
  sends : List Nat
  initRcs : List Int
  deriving DecidableEq

/-- Initial state of run_test with N freshly constructed workers. -/
def genInit (N : Nat) : GenState :=
  ⟨DriverPc.initP 0, [], List.replicate N ⟨0, 0, false⟩, [], [], []⟩

/-- Small-step interleaving semantics of one strategy run, common to all
three strategies.  Driver steps translate run_test (workers.cpp 232-259);
note that the init loop (233-235) discards the return code rc of
workers[i]->init() and continues unconditionally.  Worker steps translate
the drain logic shared verbatim by SemWorker::run (188-197),
BusyWorker::run (216-225) and LoopWorker::on_async (116-131): dequeue one
token; a sentinel sets done and emits the dump report, any other token
records one latency sample.  The wake disciplines only restrict when a
worker may attempt a dequeue, so any worker not yet done may try at any
time; this over-approximates all three strategies. -/
inductive GenStep (cap N M : Nat) (ts : Nat → Nat) : GenState → GenState → Prop where
  | initStep (s : GenState) (i : Nat) (rc : Int) :
      s.pc = DriverPc.initP i → i < N →
      GenStep cap N M ts s { s with pc := DriverPc.initP (i + 1), initRcs := s.initRcs ++ [rc] }
  | initDone (s : GenState) (i : Nat) :
      s.pc = DriverPc.initP i → ¬ i < N →
      GenStep cap N M ts s { s with pc := DriverPc.prodEnq 0 }
  | prodEnqStep (s : GenState) (i : Nat) :
      s.pc = DriverPc.prodEnq i → i < M → s.queue.length < cap →
      GenStep cap N M ts s { s with pc := DriverPc.prodSend i, queue := s.queue ++ [ts i] }
  | prodDone (s : GenState) (i : Nat) :
      s.pc = DriverPc.prodEnq i → ¬ i < M →
      GenStep cap N M ts s { s with pc := DriverPc.printT }
  | prodSendStep (s : GenState) (i : Nat) :
      s.pc = DriverPc.prodSend i →
      GenStep cap N M ts s { s with pc := DriverPc.prodEnq (i + 1), sends := s.sends ++ [i % N] }
  | printStep (s : GenState) :
      s.pc = DriverPc.printT →
      GenStep cap N M ts s { s with pc := DriverPc.sentEnq 0, output := s.output ++ [OutLine.throughput] }
  | sentEnqStep (s : GenState) (i : Nat) :
      s.pc = DriverPc.sentEnq i → i < N → s.queue.length < cap →
      GenStep cap N M ts s { s with pc := DriverPc.sentSend i, queue := s.queue ++ [SENTINEL] }
  | sentDone (s : GenState) (i : Nat) :
      s.pc = DriverPc.sentEnq i → ¬ i < N →
      GenStep cap N M ts s { s with pc := DriverPc.fin }
  | sentSendStep (s : GenState) (i : Nat) :
      s.pc = DriverPc.sentSend i →
      GenStep cap N M ts s { s with pc := DriverPc.sentEnq (i + 1), sends := s.sends ++ [(M + i) % N] }
  | deqRec (s : GenState) (j : Nat) (w : GenWorker) (v : Nat) (q : List Nat) :
      s.workers.get? j = some w → w.done = false → s.queue = v :: q → v ≠ SENTINEL →
      GenStep cap N M ts s { s with queue := q, workers := s.workers.set j { w with recorded := w.recorded + 1 } }
  | deqSent (s : GenState) (j : Nat) (w : GenWorker) (q : List Nat) :
      s.workers.get? j = some w → w.done = false → s.queue = SENTINEL :: q →
      GenStep cap N M ts s { s with queue := q, workers := s.workers.set j { w with sentinels := w.sentinels + 1, done := true }, output := s.output ++ [OutLine.report j] }

/-- Reachability from the initial state of run_test. -/
def GenReach (cap N M : Nat) (ts : Nat → Nat) (s : GenState) : Prop :=
  Relation.ReflTransGen (GenStep cap N M ts) (genInit N) s

/-- A completed strategy run: the driver executed all of run_test and every
worker observed its sentinel and finalized, so every join() returned. -/
def GenCompleted (s : GenState) : Prop :=
  s.pc = DriverPc.fin ∧ ∀ w ∈ s.workers, w.done = true

/-- Total number of latency samples recorded across all workers. -/
def totalRecorded (s : GenState) : Nat :=
  (s.workers.map (fun w => w.recorded)).sum

/-- Total number of sentinel tokens consumed across all workers. -/
def totalSentinels (s : GenState) : Nat :=
  (s.workers.map (fun w => w.sentinels)).sum

/-- Whether a token is the sentinel. -/
def isSent (v : Nat) : Bool := v == SENTINEL

/-- Number of sentinel tokens currently in the queue. -/
def countSent (q : List Nat) : Nat := q.countP isSent

/-- Number of non-sentinel (timestamp) tokens currently in the queue. -/
def countNonSent (q : List Nat) : Nat := q.countP (fun v => ! isSent v)

/-- All sentinels sit behind all timestamp tokens (the driver enqueues all
timestamps before any sentinel, and the queue is FIFO). -/
def SplitQueue (q : List Nat) : Prop :=
  ∃ a b, q = a ++ b ∧ (∀ v ∈ a, isSent v = false) ∧ (∀ v ∈ b, isSent v = true)

/-- Number of timestamp tokens the driver has enqueued at a given
location, for iteration count M. -/
def enqProd (M : Nat) : DriverPc → Nat
  | DriverPc.initP _ => 0
  | DriverPc.prodEnq i => i
  | DriverPc.prodSend i => i + 1
  | DriverPc.printT => M
  | DriverPc.sentEnq _ => M
  | DriverPc.sentSend _ => M
  | DriverPc.fin => M

/-- Number of sentinel tokens the driver has enqueued at a given location,
for worker count N. -/
def enqSent (N : Nat) : DriverPc → Nat
  | DriverPc.sentEnq i => i
  | DriverPc.sentSend i => i + 1
  | DriverPc.fin => N
  | _ => 0

/-- Number of send() calls the driver has dispatched at a given location
(the value of the variable index in run_test). -/
def sendCount (N M : Nat) : DriverPc → Nat
  | DriverPc.initP _ => 0
  | DriverPc.prodEnq i => i
  | DriverPc.prodSend i => i
  | DriverPc.printT => M
  | DriverPc.sentEnq i => M + i
  | DriverPc.sentSend i => M + i
  | DriverPc.fin => M + N

/-- Whether the throughput line has been printed at a given location. -/
def printedT : DriverPc → Bool
  | DriverPc.sentEnq _ => true
  | DriverPc.sentSend _ => true
  | DriverPc.fin => true
  | _ => false

/-- Loop counters stay within their bounds. -/
def pcWF (N M : Nat) : DriverPc → Prop
  | DriverPc.initP i => i ≤ N
  | DriverPc.prodEnq i => i ≤ M
  | DriverPc.prodSend i => i < M
  | DriverPc.sentEnq i => i ≤ N
  | DriverPc.sentSend i => i < N
  | _ => True

/-- Inductive invariant of the generic run model.  recCount and sentCount
are the conservation laws (every enqueued token is in the queue or was
consumed exactly once), split is the FIFO layout, drained captures that a
worker can only have observed a sentinel after every timestamp token left
the queue, sendsEq records the round-robin dispatch, and the out* fields
describe the printed output. -/
structure GenInv (cap N M : Nat) (ts : Nat → Nat) (s : GenState) : Prop where
  len : s.workers.length = N
  wf : pcWF N M s.pc
  recCount : totalRecorded s + countNonSent s.queue = enqProd M s.pc
  sentCount : totalSentinels s + countSent s.queue = enqSent N s.pc
  split : SplitQueue s.queue
  wdone : ∀ w ∈ s.workers, (w.done = true ↔ w.sentinels = 1) ∧ w.sentinels ≤ 1
  drained : (∃ w ∈ s.workers, w.done = true) → countNonSent s.queue = 0 ∧ enqProd M s.pc = M
  sendsEq : s.sends = (List.range (sendCount N M s.pc)).map (fun k => k % N)
  thCount : s.output.count OutLine.throughput = if printedT s.pc then 1 else 0
  repCount : ∀ j w, s.workers.get? j = some w →
    s.output.count (OutLine.report j) = if w.done then 1 else 0
  outShape : ∀ o ∈ s.output, o = OutLine.throughput ∨ ∃ j w, s.workers.get? j = some w ∧ o = OutLine.report j
  outHead : s.output.head? = some OutLine.throughput ∨ s.output = []

/-- Consumer-thread control location of a SemWorker (workers.cpp 174-201):
waiting = blocked in uv_sem_wait (line 178), draining = inside the inner
dequeue loop (188-197), done = sentinel observed, dump executed, run()
returned (198-200). -/
inductive SemPhase where
  | waiting : SemPhase
  | draining : SemPhase
  | done : SemPhase
  deriving DecidableEq

/-- State of one SemWorker: sample and sentinel counters as in the generic
model, the consumer-thread phase, the uv semaphore count, and the atomic
pending flag (workers.cpp 203-205). -/
structure SemWorkerSt where
  recorded : Nat
  sentinels : Nat
  phase : SemPhase
  sem : Nat
  pending : Bool
  deriving DecidableEq

/-- SemWorker::send (workers.cpp 157-172) as one atomic action: the
compare_exchange_strong on pending is the linearization point; the caller
that wins the false-to-true transition posts the semaphore, every other
caller returns without posting (the relaxed early-return load only skips
the CAS and produces the same outcome). -/
def sendEffect (w : SemWorkerSt) : SemWorkerSt :=
  if w.pending then w else { w with pending := true, sem := w.sem + 1 }

/-- Global state of a run of the blocking-wait strategy: the driver of
run_test plus N SemWorkers.  The run starts after every init() succeeded,
so the driver begins at the production loop. -/
structure SemState where
  pc : DriverPc
  queue : List Nat
  workers : List SemWorkerSt
  deriving DecidableEq

/-- Initial state of a blocking-wait run with N workers:
pending(false) per the SemWorker constructor (line 142), semaphore
initialized to 0 by uv_sem_init(sem, 0) (line 147), each consumer thread
blocked in its first uv_sem_wait. -/
def semInit (N : Nat) : SemState :=
  ⟨DriverPc.prodEnq 0, [], List.replicate N ⟨0, 0, SemPhase.waiting, 0, false⟩⟩

/-- Small-step interleaving semantics of a blocking-wait strategy run.
Driver steps translate the production, print and sentinel phases of
run_test, with send() dispatched to worker index % N (workers.cpp
240-254).  Worker steps translate SemWorker::run (174-201): a wake
consumes one semaphore unit and then attempts the true-to-false
compare_exchange on pending; if the flag was clear the wake is spurious
and the thread loops back to waiting (the continue on line 183), otherwise
it drains; draining dequeues one token at a time, returns to waiting when
the queue is momentarily empty, and finalizes on the sentinel. -/
inductive SemStep (cap N M : Nat) (ts : Nat → Nat) : SemState → SemState → Prop where
  | prodEnqStep (s : SemState) (i : Nat) :
      s.pc = DriverPc.prodEnq i → i < M → s.queue.length < cap →
      SemStep cap N M ts s { s with pc := DriverPc.prodSend i, queue := s.queue ++ [ts i] }
  | prodDone (s : SemState) (i : Nat) :
      s.pc = DriverPc.prodEnq i → ¬ i < M →
      SemStep cap N M ts s { s with pc := DriverPc.printT }
  | prodSendStep (s : SemState) (i : Nat) (w : SemWorkerSt) :
      s.pc = DriverPc.prodSend i → s.workers.get? (i % N) = some w →
      SemStep cap N M ts s { s with pc := DriverPc.prodEnq (i + 1), workers := s.workers.set (i % N) (sendEffect w) }
  | printStep (s : SemState) :
      s.pc = DriverPc.printT →
      SemStep cap N M ts s { s with pc := DriverPc.sentEnq 0 }
  | sentEnqStep (s : SemState) (i : Nat) :
      s.pc = DriverPc.sentEnq i → i < N → s.queue.length < cap →
      SemStep cap N M ts s { s with pc := DriverPc.sentSend i, queue := s.queue ++ [SENTINEL] }
  | sentDone (s : SemState) (i : Nat) :
      s.pc = DriverPc.sentEnq i → ¬ i < N →
      SemStep cap N M ts s { s with pc := DriverPc.fin }
  | sentSendStep (s : SemState) (i : Nat) (w : SemWorkerSt) :
      s.pc = DriverPc.sentSend i → s.workers.get? ((M + i) % N) = some w →
      SemStep cap N M ts s { s with pc := DriverPc.sentEnq (i + 1), workers := s.workers.set ((M + i) % N) (sendEffect w) }
  | wakeOk (s : SemState) (j : Nat) (w : SemWorkerSt) :
      s.workers.get? j = some w → w.phase = SemPhase.waiting → 0 < w.sem → w.pending = true →
      SemStep cap N M ts s { s with workers := s.workers.set j { w with sem := w.sem - 1, pending := false, phase := SemPhase.draining } }
  | wakeSpur (s : SemState) (j : Nat) (w : SemWorkerSt) :
      s.workers.get? j = some w → w.phase = SemPhase.waiting → 0 < w.sem → w.pending = false →
      SemStep cap N M ts s { s with workers := s.workers.set j { w with sem := w.sem - 1 } }
  | deqRec (s : SemState) (j : Nat) (w : SemWorkerSt) (v : Nat) (q : List Nat) :
      s.workers.get? j = some w → w.phase = SemPhase.draining → s.queue = v :: q → v ≠ SENTINEL →
      SemStep cap N M ts s { s with queue := q, workers := s.workers.set j { w with recorded := w.recorded + 1 } }
  | deqSent (s : SemState) (j : Nat) (w : SemWorkerSt) (q : List Nat) :
      s.workers.get? j = some w → w.phase = SemPhase.draining → s.queue = SENTINEL :: q →
      SemStep cap N M ts s { s with queue := q, workers := s.workers.set j { w with sentinels := w.sentinels + 1, phase := SemPhase.done } }
  | deqEmpty (s : SemState) (j : Nat) (w : SemWorkerSt) :
      s.workers.get? j = some w → w.phase = SemPhase.draining → s.queue = [] →
      SemStep cap N M ts s { s with workers := s.workers.set j { w with phase := SemPhase.waiting } }

/-- Reachability for the blocking-wait strategy run. -/
def SemReach (cap N M : Nat) (ts : Nat → Nat) (s : SemState) : Prop :=
  Relation.ReflTransGen (SemStep cap N M ts) (semInit N) s

/-- No transition at all is enabled: every thread of the run is blocked. -/
def SemBlocked (cap N M : Nat) (ts : Nat → Nat) (s : SemState) : Prop :=
  ∀ s', SemStep cap N M ts s s' → False

/-- The timestamp source used for concrete runs: uv_hrtime readings are
never the all-bits-set sentinel. -/
def tsZero : Nat → Nat := fun _ => 0

/-- The deadlocked state reached by the schedule in semStuck_reach below
(blocking-wait strategy, N = 4 workers, M = 2 iterations): worker 0 is
blocked in uv_sem_wait with an empty semaphore and a clear pending flag,
workers 1-3 are done, and one sentinel is still in the queue.  Worker 0's
sentinel-phase send() was coalesced into its stale production-phase wake,
worker 1 then consumed the corresponding sentinel, and worker 1's own
sentinel-phase wake was posted after worker 1 had already terminated. -/
def semStuck : SemState :=
  ⟨DriverPc.fin, [SENTINEL],
    [⟨0, 0, SemPhase.waiting, 0, false⟩,
     ⟨0, 1, SemPhase.done, 1, true⟩,
     ⟨2, 1, SemPhase.done, 0, false⟩,
     ⟨0, 1, SemPhase.done, 0, false⟩]⟩

/-- Final state of a small completed run of the generic model
(N = 1 worker, M = 1 iteration): the single token was recorded, the
sentinel consumed, the throughput line printed before the worker's
report, and both send() dispatches went to worker 0 = index % 1. -/
def gFinal : GenState :=
  ⟨DriverPc.fin, [], [⟨1, 1, true⟩], [OutLine.throughput, OutLine.report 0], [0, 0], [0]⟩

/-- A state of the generic model (N = 4, M = 1) in which worker 0's
init() returned the failure code -1 and the driver nevertheless went on
to enqueue a token and dispatch a send(): run_test discards the return
value of workers[i]->init() (workers.cpp 233-235). -/
def gBug : GenState :=
  ⟨DriverPc.prodEnq 1, [0], List.replicate 4 ⟨0, 0, false⟩, [], [0], [-1, 0, 0, 0]⟩

/-- A one-worker blocking-wait state with the worker parked in
uv_sem_wait, one semaphore unit posted and the pending flag set. -/
def semW4 : SemState :=
  ⟨DriverPc.printT, [], [⟨0, 0, SemPhase.waiting, 2, true⟩]⟩

theorem getq_set_self {α : Type} (l : List α) (j : Nat) (a : α) (h : j < l.length) :
    (l.set j a).get? j = some a := by
  induction l generalizing j with
  | nil => simp at h
  | cons x xs ih =>
    cases j with
    | zero => rfl
    | succ n => simpa using ih n (by simpa using h)

theorem getq_set_ne {α : Type} (l : List α) (i j : Nat) (a : α) (h : i ≠ j) :
    (l.set i a).get? j = l.get? j := by
  induction l generalizing i j with
  | nil => simp
  | cons x xs ih =>
    cases i with
    | zero =>
      cases j with
      | zero => exact absurd rfl h
      | succ m => rfl
    | succ n =>
      cases j with
      | zero => rfl
      | succ m => simpa using ih n m (fun hnm => h (by rw [hnm]))

theorem mem_set_cases {α : Type} (l : List α) (i : Nat) (a b : α) (h : b ∈ l.set i a) :
    b ∈ l ∨ b = a := by
  induction l generalizing i with
  | nil => simp at h
  | cons x xs ih =>
    cases i with
    | zero =>
      rcases List.mem_cons.mp h with h' | h'
      · exact Or.inr h'
      · exact Or.inl (List.mem_cons_of_mem _ h')
    | succ n =>
      rcases List.mem_cons.mp h with h' | h'
      · exact Or.inl (h' ▸ List.mem_cons_self _ _)
      · rcases ih n h' with h'' | h''
        · exact Or.inl (List.mem_cons_of_mem _ h'')
        · exact Or.inr h''

theorem sum_map_set {α : Type} (g : α → Nat) (l : List α) (j : Nat) (w w' : α)
    (h : l.get? j = some w) :
    ((l.set j w').map g).sum + g w = (l.map g).sum + g w' := by
  induction l generalizing j with
  | nil => simp at h
  | cons x xs ih =>
    cases j with
    | zero =>
      simp only [List.get?] at h
      cases h
      simp only [List.set, List.map_cons, List.sum_cons]
      omega
    | succ n =>
      simp only [List.get?] at h
      have := ih n h
      simp only [List.set, List.map_cons, List.sum_cons]
      omega

theorem headq_append {α : Type} (l l' : List α) (h : l ≠ []) :
    (l ++ l').head? = l.head? := by
  cases l with
  | nil => exact absurd rfl h
  | cons x xs => rfl

theorem enqSent_pos_printedT (N : Nat) (pc : DriverPc) (h : 0 < enqSent N pc) :
    printedT pc = true := by
  cases pc <;> simp [enqSent, printedT] at h ⊢

theorem enqSent_pos_enqProd (N M : Nat) (pc : DriverPc) (h : 0 < enqSent N pc) :
    enqProd M pc = M := by
  cases pc <;> simp [enqSent, enqProd] at h ⊢

theorem isSent_sentinel : isSent SENTINEL = true := by
  simp [isSent]

theorem isSent_false_of_ne (v : Nat) (h : v ≠ SENTINEL) : isSent v = false := by
  simp [isSent, h]

theorem splitQueue_nil : SplitQueue [] :=
  ⟨[], [], rfl, by simp, by simp⟩

theorem splitQueue_tail (v : Nat) (q : List Nat) (h : SplitQueue (v :: q)) : SplitQueue q := by
  obtain ⟨a, b, hab, ha, hb⟩ := h
  cases a with
  | nil =>
    cases b with
    | nil => simp at hab
    | cons y ys =>
      simp only [List.nil_append] at hab
      injection hab with h1 h2
      subst h2
      exact ⟨[], q, rfl, by simp, fun x hx => hb x (List.mem_cons_of_mem _ hx)⟩
  | cons x xs =>
    simp only [List.cons_append] at hab
    cases hab
    exact ⟨xs, b, rfl, fun z hz => ha z (List.mem_cons_of_mem _ hz), hb⟩

theorem splitQueue_append_sent (q : List Nat) (h : SplitQueue q) :
    SplitQueue (q ++ [SENTINEL]) := by
  obtain ⟨a, b, hab, ha, hb⟩ := h
  refine ⟨a, b ++ [SENTINEL], by rw [hab, List.append_assoc], ha, ?_⟩
  intro v hv
  rcases List.mem_append.mp hv with h' | h'
  · exact hb v h'
  · simp only [List.mem_singleton] at h'
    rw [h']
    exact isSent_sentinel

theorem splitQueue_append_nonsent (q : List Nat) (v : Nat) (h : SplitQueue q)
    (hz : countSent q = 0) (hv : isSent v = false) : SplitQueue (q ++ [v]) := by
  obtain ⟨a, b, hab, ha, hb⟩ := h
  cases b with
  | cons y ys =>
    exfalso
    have hy : isSent y = true := hb y (List.mem_cons_self _ _)
    have : 0 < countSent q := by
      rw [hab]
      unfold countSent
      rw [List.countP_append]
      simp [List.countP_cons, hy]
    omega
  | nil =>
    refine ⟨a ++ [v], [], by simp [hab], ?_, by simp⟩
    intro z hz'
    rcases List.mem_append.mp hz' with h' | h'
    · exact ha z h'
    · simp only [List.mem_singleton] at h'
      rw [h']
      exact hv

theorem splitQueue_head_sent (q : List Nat) (h : SplitQueue (SENTINEL :: q)) :
    countNonSent (SENTINEL :: q) = 0 := by
  obtain ⟨a, b, hab, ha, hb⟩ := h
  have hall : ∀ v ∈ SENTINEL :: q, isSent v = true := by
    cases a with
    | nil =>
      simp only [List.nil_append] at hab
      intro v hv
      exact hb v (hab ▸ hv)
    | cons x xs =>
      exfalso
      have hx : isSent x = false := ha x (List.mem_cons_self _ _)
      have hxs : SENTINEL = x := by
        simpa using congrArg List.head? hab
      rw [← hxs, isSent_sentinel] at hx
      cases hx
  unfold countNonSent
  rw [List.countP_eq_zero]
  intro v hv
  simp [hall v hv]

theorem getq_lt {α : Type} (l : List α) (j : Nat) (a : α) (h : l.get? j = some a) :
    j < l.length := by
  induction l generalizing j with
  | nil => simp [List.get?] at h
  | cons x xs ih =>
    cases j with
    | zero => simp
    | succ n =>
      simp only [List.get?] at h
      simpa using ih n h

theorem getq_mem {α : Type} (l : List α) (j : Nat) (a : α) (h : l.get? j = some a) :
    a ∈ l := by
  induction l generalizing j with
  | nil => simp [List.get?] at h
  | cons x xs ih =>
    cases j with
    | zero =>
      simp only [List.get?] at h
      cases h
      exact List.mem_cons_self _ _
    | succ n =>
      simp only [List.get?] at h
      exact List.mem_cons_of_mem _ (ih n h)

theorem genInv_init (cap N M : Nat) (ts : Nat → Nat) : GenInv cap N M ts (genInit N) := by
  refine ⟨?_, ?_, ?_, ?_, ?_, ?_, ?_, ?_, ?_, ?_, ?_, ?_⟩
  · simp [genInit]
  · exact Nat.zero_le N
  · simp [genInit, totalRecorded, countNonSent, enqProd, List.map_replicate]
  · simp [genInit, totalSentinels, countSent, enqSent, List.map_replicate]
  · exact splitQueue_nil
  · intro w hw
    have := List.eq_of_mem_replicate hw
    subst this
    simp
  · rintro ⟨w, hw, hdone⟩
    have := List.eq_of_mem_replicate hw
    subst this
    simp at hdone
  · simp [genInit, sendCount]
  · simp [genInit, printedT]
  · intro j w hw
    have := List.eq_of_mem_replicate (getq_mem _ _ _ hw)
    subst this
    simp [genInit]
  · intro o ho
    simp [genInit] at ho
  · exact Or.inr rfl

theorem genInv_step (cap N M : Nat) (ts : Nat → Nat) (hts : ∀ k, ts k ≠ SENTINEL)
    (s s' : GenState) (hinv : GenInv cap N M ts s) (h : GenStep cap N M ts s s') :
    GenInv cap N M ts s' := by
  obtain ⟨len, wf, rc, sc, sp, wd, dr, se, tc, rp, os, oh⟩ := hinv
  cases h with
  | initStep i rci hpc hi =>
    rw [hpc] at wf rc sc dr se tc
    exact ⟨len, hi, rc, sc, sp, wd, dr, se, tc, rp, os, oh⟩
  | initDone i hpc hi =>
    rw [hpc] at wf rc sc dr se tc
    exact ⟨len, Nat.zero_le M, rc, sc, sp, wd, dr, se, tc, rp, os, oh⟩
  | prodEnqStep i hpc hi hcap =>
    rw [hpc] at wf rc sc dr se tc
    have hv : isSent (ts i) = false := isSent_false_of_ne _ (hts i)
    have hcn : countNonSent (s.queue ++ [ts i]) = countNonSent s.queue + 1 := by
      unfold countNonSent
      rw [List.countP_append]
      simp [hv]
    have hcs : countSent (s.queue ++ [ts i]) = countSent s.queue := by
      unfold countSent
      rw [List.countP_append]
      simp [hv]
    have hz : countSent s.queue = 0 := by
      simp only [enqSent] at sc
      omega
    refine ⟨len, hi, ?_, ?_, ?_, wd, ?_, se, tc, rp, os, oh⟩
    · show totalRecorded s + countNonSent (s.queue ++ [ts i]) = i + 1
      simp only [enqProd] at rc
      omega
    · show totalSentinels s + countSent (s.queue ++ [ts i]) = 0
      simp only [enqSent] at sc
      omega
    · exact splitQueue_append_nonsent s.queue (ts i) sp hz hv
    · intro hex
      obtain ⟨h1, h2⟩ := dr hex
      simp only [enqProd] at h2
      omega
  | prodDone i hpc hi =>
    rw [hpc] at wf rc sc dr se tc
    have hiM : i = M := by
      simp only [pcWF] at wf
      omega
    subst hiM
    exact ⟨len, trivial, rc, sc, sp, wd, dr, se, tc, rp, os, oh⟩
  | prodSendStep i hpc =>
    rw [hpc] at wf rc sc dr se tc
    refine ⟨len, wf, rc, sc, sp, wd, dr, ?_, tc, rp, os, oh⟩
    show s.sends ++ [i % N] = (List.range (i + 1)).map (fun k => k % N)
    simp only [sendCount] at se
    rw [se, List.range_succ, List.map_append]
    rfl
  | printStep hpc =>
    rw [hpc] at wf rc sc dr se tc
    have h0 : s.output.count OutLine.throughput = 0 := by
      simpa [printedT] using tc
    have hnil : s.output = [] := by
      rcases oh with h | h
      · exfalso
        have hmem : OutLine.throughput ∈ s.output := by
          cases hqe : s.output with
          | nil =>
            rw [hqe] at h
            simp at h
          | cons o rest =>
            rw [hqe] at h
            simp only [List.head?] at h
            injection h with h'
            subst h'
            exact List.mem_cons_self _ _
        rw [List.count_eq_zero] at h0
        exact h0 hmem
      · exact h
    refine ⟨len, Nat.zero_le N, rc, sc, sp, wd, dr, se, ?_, ?_, ?_, ?_⟩
    · show (s.output ++ [OutLine.throughput]).count OutLine.throughput = 1
      rw [List.count_append, h0]
      rfl
    · intro j w hw
      show (s.output ++ [OutLine.throughput]).count (OutLine.report j) = _
      rw [List.count_append, rp j w hw]
      simp
    · intro o ho
      rcases List.mem_append.mp ho with h' | h'
      · exact os o h'
      · simp only [List.mem_singleton] at h'
        exact Or.inl h'
    · left
      rw [hnil]
      rfl
  | sentEnqStep i hpc hi hcap =>
    rw [hpc] at wf rc sc dr se tc
    have hcn : countNonSent (s.queue ++ [SENTINEL]) = countNonSent s.queue := by
      unfold countNonSent
      rw [List.countP_append]
      simp [isSent_sentinel]
    have hcs : countSent (s.queue ++ [SENTINEL]) = countSent s.queue + 1 := by
      unfold countSent
      rw [List.countP_append]
      simp [isSent_sentinel]
    refine ⟨len, hi, ?_, ?_, splitQueue_append_sent _ sp, wd, ?_, se, tc, rp, os, oh⟩
    · show totalRecorded s + countNonSent (s.queue ++ [SENTINEL]) = M
      simp only [enqProd] at rc
      omega
    · show totalSentinels s + countSent (s.queue ++ [SENTINEL]) = i + 1
      simp only [enqSent] at sc
      omega
    · intro hex
      obtain ⟨h1, h2⟩ := dr hex
      refine ⟨?_, h2⟩
      show countNonSent (s.queue ++ [SENTINEL]) = 0
      omega
  | sentDone i hpc hi =>
    rw [hpc] at wf rc sc dr se tc
    have hiN : i = N := by
      simp only [pcWF] at wf
      omega
    subst hiN
    exact ⟨len, trivial, rc, sc, sp, wd, dr, se, tc, rp, os, oh⟩
  | sentSendStep i hpc =>
    rw [hpc] at wf rc sc dr se tc
    refine ⟨len, wf, rc, sc, sp, wd, dr, ?_, tc, rp, os, oh⟩
    show s.sends ++ [(M + i) % N] = (List.range (M + i + 1)).map (fun k => k % N)
    simp only [sendCount] at se
    rw [se, List.range_succ, List.map_append]
    rfl
  | deqRec j w v q hw hd hq hv =>
    rw [hq] at rc sc sp dr
    have hjlt : j < s.workers.length := getq_lt _ _ _ hw
    have hvf : isSent v = false := isSent_false_of_ne _ hv
    have hcn : countNonSent (v :: q) = countNonSent q + 1 := by
      unfold countNonSent
      rw [List.countP_cons]
      simp [hvf]
    have hcs : countSent (v :: q) = countSent q := by
      unfold countSent
      rw [List.countP_cons]
      simp [hvf]
    have hsumr := sum_map_set (fun w => w.recorded) s.workers j w
      { w with recorded := w.recorded + 1 } hw
    have hsums := sum_map_set (fun w => w.sentinels) s.workers j w
      { w with recorded := w.recorded + 1 } hw
    refine ⟨?_, wf, ?_, ?_, splitQueue_tail _ _ sp, ?_, ?_, se, tc, ?_, ?_, oh⟩
    · show (s.workers.set j _).length = N
      rw [List.length_set]
      exact len
    · show ((s.workers.set j { w with recorded := w.recorded + 1 }).map (fun w => w.recorded)).sum
        + countNonSent q = enqProd M s.pc
      unfold totalRecorded at rc
      simp only at hsumr
      omega
    · show ((s.workers.set j { w with recorded := w.recorded + 1 }).map (fun w => w.sentinels)).sum
        + countSent q = enqSent N s.pc
      unfold totalSentinels at sc
      simp only at hsums
      omega
    · intro w'' hmem
      rcases mem_set_cases _ _ _ _ hmem with h' | h'
      · exact wd _ h'
      · subst h'
        exact wd w (getq_mem _ _ _ hw)
    · rintro ⟨w'', hmem, hdone⟩
      rcases mem_set_cases _ _ _ _ hmem with h' | h'
      · obtain ⟨h1, h2⟩ := dr ⟨w'', h', hdone⟩
        exfalso
        omega
      · subst h'
        simp [hd] at hdone
    · intro j' w'' hw''
      rcases eq_or_ne j' j with h' | hne
      · subst h'
        rw [getq_set_self _ _ _ hjlt] at hw''
        injection hw'' with h2
        subst h2
        exact rp j' w hw
      · rw [getq_set_ne _ _ _ _ (Ne.symm hne)] at hw''
        exact rp j' w'' hw''
    · intro o ho
      rcases os o ho with h' | ⟨j', w'', hj', h'⟩
      · exact Or.inl h'
      · rcases eq_or_ne j' j with h'' | hne
        · subst h''
          exact Or.inr ⟨j', _, getq_set_self _ _ _ hjlt, h'⟩
        · refine Or.inr ⟨j', w'', ?_, h'⟩
          rw [getq_set_ne _ _ _ _ (Ne.symm hne)]
          exact hj'
  | deqSent j w q hw hd hq =>
    rw [hq] at rc sc sp dr
    have hjlt : j < s.workers.length := getq_lt _ _ _ hw
    have hcn0 : countNonSent (SENTINEL :: q) = 0 := splitQueue_head_sent q sp
    have hcn : countNonSent (SENTINEL :: q) = countNonSent q := by
      unfold countNonSent
      rw [List.countP_cons]
      simp [isSent_sentinel]
    have hcs : countSent (SENTINEL :: q) = countSent q + 1 := by
      unfold countSent
      rw [List.countP_cons]
      simp [isSent_sentinel]
    have hsent_pos : 0 < enqSent N s.pc := by
      omega
    have hpr : printedT s.pc = true := enqSent_pos_printedT N s.pc hsent_pos
    have hpM : enqProd M s.pc = M := enqSent_pos_enqProd N M s.pc hsent_pos
    have hw_sent0 : w.sentinels = 0 := by
      obtain ⟨hiff, hle⟩ := wd w (getq_mem _ _ _ hw)
      rcases Nat.lt_or_ge w.sentinels 1 with h' | h'
      · omega
      · exfalso
        have h1 : w.sentinels = 1 := by omega
        have := hiff.mpr h1
        rw [hd] at this
        cases this
    have hsumr := sum_map_set (fun w => w.recorded) s.workers j w
      { w with sentinels := w.sentinels + 1, done := true } hw
    have hsums := sum_map_set (fun w => w.sentinels) s.workers j w
      { w with sentinels := w.sentinels + 1, done := true } hw
    have htc1 : s.output.count OutLine.throughput = 1 := by
      rw [hpr] at tc
      exact tc
    have hone : s.output ≠ [] := by
      intro hnil
      rw [hnil] at htc1
      simp at htc1
    refine ⟨?_, wf, ?_, ?_, splitQueue_tail _ _ sp, ?_, ?_, se, ?_, ?_, ?_, ?_⟩
    · show (s.workers.set j _).length = N
      rw [List.length_set]
      exact len
    · show ((s.workers.set j { w with sentinels := w.sentinels + 1, done := true }).map
        (fun w => w.recorded)).sum + countNonSent q = enqProd M s.pc
      unfold totalRecorded at rc
      simp only at hsumr
      omega
    · show ((s.workers.set j { w with sentinels := w.sentinels + 1, done := true }).map
        (fun w => w.sentinels)).sum + countSent q = enqSent N s.pc
      unfold totalSentinels at sc
      simp only at hsums
      omega
    · intro w'' hmem
      rcases mem_set_cases _ _ _ _ hmem with h' | h'
      · exact wd _ h'
      · subst h'
        simp [hw_sent0]
    · intro hex
      refine ⟨?_, hpM⟩
      show countNonSent q = 0
      omega
    · show (s.output ++ [OutLine.report j]).count OutLine.throughput = _
      rw [List.count_append, htc1]
      simp [hpr]
    · intro j' w'' hw''
      rcases eq_or_ne j' j with h' | hne
      · subst h'
        rw [getq_set_self _ _ _ hjlt] at hw''
        injection hw'' with h2
        subst h2
        show (s.output ++ [OutLine.report j']).count (OutLine.report j') = 1
        rw [List.count_append]
        have h0 : s.output.count (OutLine.report j') = 0 := by
          have := rp j' w hw
          rw [hd] at this
          simpa using this
        rw [h0]
        simp
      · rw [getq_set_ne _ _ _ _ (Ne.symm hne)] at hw''
        show (s.output ++ [OutLine.report j]).count (OutLine.report j') = _
        rw [List.count_append, rp j' w'' hw'']
        have h0 : ([OutLine.report j] : List OutLine).count (OutLine.report j') = 0 := by
          simp only [List.count_singleton, List.count_cons, List.count_nil, beq_iff_eq]
          simp only [OutLine.report.injEq]
          rw [if_neg (fun hh => hne (Eq.symm hh))]
        omega
    · intro o ho
      rcases List.mem_append.mp ho with h' | h'
      · rcases os o h' with h'' | ⟨j', w'', hj', h''⟩
        · exact Or.inl h''
        · rcases eq_or_ne j' j with h3 | hne
          · subst h3
            exact Or.inr ⟨j', _, getq_set_self _ _ _ hjlt, h''⟩
          · refine Or.inr ⟨j', w'', ?_, h''⟩
            rw [getq_set_ne _ _ _ _ (Ne.symm hne)]
            exact hj'
      · simp only [List.mem_singleton] at h'
        subst h'
        exact Or.inr ⟨j, _, getq_set_self _ _ _ hjlt, rfl⟩
    · left
      rw [headq_append _ _ hone]
      rcases oh with h' | h'
      · exact h'
      · exact absurd h' hone

theorem genInv_reach (cap N M : Nat) (ts : Nat → Nat) (hts : ∀ k, ts k ≠ SENTINEL)
    (s : GenState) (h : GenReach cap N M ts s) : GenInv cap N M ts s := by
  induction h with
  | refl => exact genInv_init cap N M ts
  | tail hsteps hstep ih => exact genInv_step cap N M ts hts _ _ ih hstep

theorem genStep_freeze (cap N M : Nat) (ts : Nat → Nat) (s s' : GenState)
    (h : GenStep cap N M ts s s') (j : Nat) (w : GenWorker)
    (hw : s.workers.get? j = some w) (hd : w.done = true) :
    s'.workers.get? j = some w := by
  cases h with
  | initStep i rci hpc hi => exact hw
  | initDone i hpc hi => exact hw
  | prodEnqStep i hpc hi hcap => exact hw
  | prodDone i hpc hi => exact hw
  | prodSendStep i hpc => exact hw
  | printStep hpc => exact hw
  | sentEnqStep i hpc hi hcap => exact hw
  | sentDone i hpc hi => exact hw
  | sentSendStep i hpc => exact hw
  | deqRec j' w' v q hw' hd' hq hv =>
    rcases eq_or_ne j' j with h' | hne
    · subst h'
      rw [hw'] at hw
      injection hw with h2
      rw [h2, hd] at hd'
      cases hd'
    · show (s.workers.set j' _).get? j = some w
      rw [getq_set_ne _ _ _ _ hne]
      exact hw
  | deqSent j' w' q hw' hd' hq =>
    rcases eq_or_ne j' j with h' | hne
    · subst h'
      rw [hw'] at hw
      injection hw with h2
      rw [h2, hd] at hd'
      cases hd'
    · show (s.workers.set j' _).get? j = some w
      rw [getq_set_ne _ _ _ _ hne]
      exact hw

theorem genSteps_freeze (cap N M : Nat) (ts : Nat → Nat) (s s' : GenState)
    (h : Relation.ReflTransGen (GenStep cap N M ts) s s') (j : Nat) (w : GenWorker)
    (hw : s.workers.get? j = some w) (hd : w.done = true) :
    s'.workers.get? j = some w := by
  induction h with
  | refl => exact hw
  | tail hsteps hstep ih => exact genStep_freeze cap N M ts _ _ hstep j w ih hd

theorem tsZero_ne_sentinel : ∀ k, tsZero k ≠ SENTINEL := by
  intro k
  show (0 : Nat) ≠ SENTINEL
  decide

theorem gFinal_reach : GenReach queueCapacity 1 1 tsZero gFinal := by
  refine Relation.ReflTransGen.head (GenStep.initStep _ 0 0 rfl (by decide)) ?_
  refine Relation.ReflTransGen.head (GenStep.initDone _ 1 rfl (by decide)) ?_
  refine Relation.ReflTransGen.head (GenStep.prodEnqStep _ 0 rfl (by decide) (by decide)) ?_
  refine Relation.ReflTransGen.head (GenStep.prodSendStep _ 0 rfl) ?_
  refine Relation.ReflTransGen.head (GenStep.prodDone _ 1 rfl (by decide)) ?_
  refine Relation.ReflTransGen.head (GenStep.printStep _ rfl) ?_
  refine Relation.ReflTransGen.head (GenStep.sentEnqStep _ 0 rfl (by decide) (by decide)) ?_
  refine Relation.ReflTransGen.head (GenStep.sentSendStep _ 0 rfl) ?_
  refine Relation.ReflTransGen.head (GenStep.sentDone _ 1 rfl (by decide)) ?_
  refine Relation.ReflTransGen.head (GenStep.deqRec _ 0 ⟨0, 0, false⟩ 0 [SENTINEL] rfl rfl rfl (by decide)) ?_
  refine Relation.ReflTransGen.head (GenStep.deqSent _ 0 ⟨1, 0, false⟩ [] rfl rfl rfl) ?_
  exact Relation.ReflTransGen.refl

theorem gBug_reach : GenReach queueCapacity 4 1 tsZero gBug := by
  refine Relation.ReflTransGen.head (GenStep.initStep _ 0 (-1) rfl (by decide)) ?_
  refine Relation.ReflTransGen.head (GenStep.initStep _ 1 0 rfl (by decide)) ?_
  refine Relation.ReflTransGen.head (GenStep.initStep _ 2 0 rfl (by decide)) ?_
  refine Relation.ReflTransGen.head (GenStep.initStep _ 3 0 rfl (by decide)) ?_
  refine Relation.ReflTransGen.head (GenStep.initDone _ 4 rfl (by decide)) ?_
  refine Relation.ReflTransGen.head (GenStep.prodEnqStep _ 0 rfl (by decide) (by decide)) ?_
  refine Relation.ReflTransGen.head (GenStep.prodSendStep _ 0 rfl) ?_
  exact Relation.ReflTransGen.refl

/-- C1.  For every completed strategy run with worker count N and iteration
count M, the total number of latency samples recorded across all N workers
equals exactly M, the number of non-sentinel tokens the driver enqueued:
no token is lost and none is counted twice (workers.cpp run_test 240-245,
BaseWorker::record 28-30, and the three drain loops). -/
theorem c1_total_samples_eq_iterations (cap N M : Nat) (ts : Nat → Nat) (s : GenState)
    (hts : ∀ k, ts k ≠ SENTINEL) (hN : 1 ≤ N)
    (h : GenReach cap N M ts s) (hc : GenCompleted s) :
    totalRecorded s = M := by
  obtain ⟨len, wf, rc, sc, sp, wd, dr, se, tc, rp, os, oh⟩ := genInv_reach cap N M ts hts s h
  obtain ⟨hfin, hall⟩ := hc
  rw [hfin] at rc
  simp only [enqProd] at rc
  have hex : ∃ w ∈ s.workers, w.done = true := by
    cases hqw : s.workers with
    | nil =>
      exfalso
      rw [hqw] at len
      simp at len
      omega
    | cons w ws =>
      refine ⟨w, List.mem_cons_self _ _, ?_⟩
      apply hall
      rw [hqw]
      exact List.mem_cons_self _ _
  obtain ⟨h1, h2⟩ := dr hex
  omega

/-- C1 witness: a concrete completed run with N = 1 worker and M = 1
iteration records exactly one sample. -/
theorem c1_total_samples_witness : totalRecorded gFinal = 1 :=
  c1_total_samples_eq_iterations queueCapacity 1 1 tsZero gFinal
    tsZero_ne_sentinel (by decide) gFinal_reach ⟨rfl, by decide⟩

/-- C2 (amended).  After the measured production loop the driver enqueues
exactly N sentinel tokens (when the driver is at the join loop,
sentinels consumed plus sentinels still queued equal N), dispatching
send() round-robin exactly as in the production loop (the k-th send of the
whole run goes to worker k % N, for k = 0 .. M+N-1), and every worker that
has terminated observed exactly one sentinel; termination of all workers,
however, is not guaranteed (see the blocking-wait deadlock
counterexample). -/
theorem c2_sentinel_dispatch_roundrobin (cap N M : Nat) (ts : Nat → Nat) (s : GenState)
    (hts : ∀ k, ts k ≠ SENTINEL) (h : GenReach cap N M ts s)
    (hfin : s.pc = DriverPc.fin) :
    totalSentinels s + countSent s.queue = N ∧
    s.sends = (List.range (M + N)).map (fun k => k % N) ∧
    (∀ j w, s.workers.get? j = some w → w.done = true → w.sentinels = 1) := by
  obtain ⟨len, wf, rc, sc, sp, wd, dr, se, tc, rp, os, oh⟩ := genInv_reach cap N M ts hts s h
  rw [hfin] at sc se
  refine ⟨sc, se, ?_⟩
  intro j w hw hd
  exact ((wd w (getq_mem _ _ _ hw)).1).mp hd

/-- C2 witness: in the completed one-worker run, exactly one sentinel was
enqueued, both send() dispatches went round-robin to worker 0, and the
terminated worker observed one sentinel. -/
theorem c2_sentinel_dispatch_witness :
    totalSentinels gFinal + countSent gFinal.queue = 1 ∧
    gFinal.sends = (List.range (1 + 1)).map (fun k => k % 1) ∧
    (∀ j w, gFinal.workers.get? j = some w → w.done = true → w.sentinels = 1) :=
  c2_sentinel_dispatch_roundrobin queueCapacity 1 1 tsZero gFinal
    tsZero_ne_sentinel gFinal_reach rfl

/-- C8.  For every completed strategy run, standard output carries exactly
one throughput line, exactly one percentile-report line per worker,
nothing else, and the throughput line comes first; the two line formats
are the printf formats of run_test (line 247) and BaseWorker::dump
(lines 43-48). -/
theorem c8_output_lines (cap N M : Nat) (ts : Nat → Nat) (s : GenState)
    (hts : ∀ k, ts k ≠ SENTINEL) (h : GenReach cap N M ts s) (hc : GenCompleted s) :
    s.output.count OutLine.throughput = 1 ∧
    (∀ j w, s.workers.get? j = some w → s.output.count (OutLine.report j) = 1) ∧
    s.output.head? = some OutLine.throughput ∧
    (∀ o ∈ s.output, o = OutLine.throughput ∨ ∃ j w, s.workers.get? j = some w ∧ o = OutLine.report j) ∧
    throughputFormat = "Test \"%s\": Elapsed: %f seconds, Rate: %f queues/second\n" ∧
    dumpFormat = "final stats (nanoseconds): min %lld max %lld median %lld 75th %lld 95th %lld 98th %lld 99th %lld 99.9th %lld mean: %f stddev: %f\n" := by
  obtain ⟨len, wf, rc, sc, sp, wd, dr, se, tc, rp, os, oh⟩ := genInv_reach cap N M ts hts s h
  obtain ⟨hfin, hall⟩ := hc
  rw [hfin] at tc
  simp only [printedT, if_pos] at tc
  have hth : s.output.count OutLine.throughput = 1 := tc
  refine ⟨hth, ?_, ?_, os, rfl, rfl⟩
  · intro j w hw
    have := rp j w hw
    rw [hall w (getq_mem _ _ _ hw)] at this
    simpa using this
  · rcases oh with h' | h'
    · exact h'
    · exfalso
      rw [h'] at hth
      simp at hth

/-- C8 witness: the completed one-worker run printed the throughput line
first and exactly one report line for worker 0. -/
theorem c8_output_lines_witness :
    gFinal.output.count OutLine.throughput = 1 ∧
    (∀ j w, gFinal.workers.get? j = some w → gFinal.output.count (OutLine.report j) = 1) ∧
    gFinal.output.head? = some OutLine.throughput ∧
    (∀ o ∈ gFinal.output, o = OutLine.throughput ∨ ∃ j w, gFinal.workers.get? j = some w ∧ o = OutLine.report j) ∧
    throughputFormat = "Test \"%s\": Elapsed: %f seconds, Rate: %f queues/second\n" ∧
    dumpFormat = "final stats (nanoseconds): min %lld max %lld median %lld 75th %lld 95th %lld 98th %lld 99th %lld 99.9th %lld mean: %f stddev: %f\n" :=
  c8_output_lines queueCapacity 1 1 tsZero gFinal tsZero_ne_sentinel
    gFinal_reach ⟨rfl, by decide⟩

/-- C9.  In every strategy, every worker consumes at most one sentinel
token per run; a worker that has observed the sentinel has emitted its
percentile report exactly once, and it takes no further step: its state
(and in particular its dequeue counters) stays frozen in every subsequent
state, leaving any remaining queued sentinels to the other workers. -/
theorem c9_at_most_one_sentinel (cap N M : Nat) (ts : Nat → Nat) (s : GenState)
    (hts : ∀ k, ts k ≠ SENTINEL) (h : GenReach cap N M ts s) :
    (∀ w ∈ s.workers, w.sentinels ≤ 1 ∧ (w.done = true ↔ w.sentinels = 1)) ∧
    (∀ j w, s.workers.get? j = some w →
      s.output.count (OutLine.report j) = if w.done then 1 else 0) ∧
    (∀ s', Relation.ReflTransGen (GenStep cap N M ts) s s' →
      ∀ j w, s.workers.get? j = some w → w.done = true → s'.workers.get? j = some w) := by
  obtain ⟨len, wf, rc, sc, sp, wd, dr, se, tc, rp, os, oh⟩ := genInv_reach cap N M ts hts s h
  refine ⟨?_, rp, ?_⟩
  · intro w hw
    obtain ⟨h1, h2⟩ := wd w hw
    exact ⟨h2, h1⟩
  · intro s' hsteps j w hw hd
    exact genSteps_freeze cap N M ts s s' hsteps j w hw hd

/-- C9 witness: instantiated at the completed one-worker run. -/
theorem c9_at_most_one_sentinel_witness :
    (∀ w ∈ gFinal.workers, w.sentinels ≤ 1 ∧ (w.done = true ↔ w.sentinels = 1)) ∧
    (∀ j w, gFinal.workers.get? j = some w →
      gFinal.output.count (OutLine.report j) = if w.done then 1 else 0) ∧
    (∀ s', Relation.ReflTransGen (GenStep queueCapacity 1 1 tsZero) gFinal s' →
      ∀ j w, gFinal.workers.get? j = some w → w.done = true → s'.workers.get? j = some w) :=
  c9_at_most_one_sentinel queueCapacity 1 1 tsZero gFinal tsZero_ne_sentinel gFinal_reach

/-- C5 (code bug).  run_test discards the return value of
workers[i]->init() (workers.cpp 233-235): in a run where worker 0's
init() returned the failure code -1, the driver nevertheless enqueued a
token and dispatched a send(); the run is not aborted.  The spec says an
init() failure aborts the run before any token is enqueued. -/
theorem c5_init_failure_ignored :
    GenReach queueCapacity 4 1 tsZero gBug ∧
    gBug.initRcs = [-1, 0, 0, 0] ∧
    (-1 : Int) ≠ 0 ∧
    gBug.queue = [tsZero 0] ∧
    gBug.sends = [0] :=
  ⟨gBug_reach, rfl, by decide, rfl, rfl⟩

theorem sendEffect_pending_fixed (w : SemWorkerSt) (hp : w.pending = true) :
    ∀ n, sendEffect^[n] w = w := by
  intro n
  induction n with
  | zero => rfl
  | succ m ih =>
    rw [Function.iterate_succ_apply]
    have hw : sendEffect w = w := by simp [sendEffect, hp]
    rw [hw]
    exact ih

/-- C3.  SemWorker::send coalescing (workers.cpp 157-172): while the
PendingFlag is already set, any number of send() calls leaves the
semaphore untouched (no call posts); from a clear flag, a burst of n >= 1
consecutive send() calls posts the underlying semaphore exactly once —
only the caller that wins the false-to-true transition of the flag
posts. -/
theorem c3_send_coalescing (w : SemWorkerSt) (n : Nat) :
    (w.pending = true → sendEffect^[n] w = w) ∧
    (w.pending = false → 1 ≤ n →
      sendEffect^[n] w = { w with pending := true, sem := w.sem + 1 }) := by
  constructor
  · intro hp
    exact sendEffect_pending_fixed w hp n
  · intro hp hn
    cases n with
    | zero => omega
    | succ m =>
      rw [Function.iterate_succ_apply]
      have hw : sendEffect w = { w with pending := true, sem := w.sem + 1 } := by
        simp [sendEffect, hp]
      rw [hw]
      exact sendEffect_pending_fixed _ rfl m

/-- C3 witness: five rapid send() calls on a worker with a clear flag post
exactly one semaphore unit; three more on a worker with the flag set post
none. -/
theorem c3_send_coalescing_witness :
    sendEffect^[5] (⟨0, 0, SemPhase.waiting, 0, false⟩ : SemWorkerSt)
      = ⟨0, 0, SemPhase.waiting, 1, true⟩ ∧
    sendEffect^[3] (⟨0, 0, SemPhase.waiting, 1, true⟩ : SemWorkerSt)
      = ⟨0, 0, SemPhase.waiting, 1, true⟩ :=
  ⟨(c3_send_coalescing ⟨0, 0, SemPhase.waiting, 0, false⟩ 5).2 rfl (by decide),
   (c3_send_coalescing ⟨0, 0, SemPhase.waiting, 1, true⟩ 3).1 rfl⟩

/-- C4.  SemWorker::run wake gate (workers.cpp 174-201): a worker parked
in uv_sem_wait with a posted semaphore takes exactly one of two wake
transitions: if the pending flag is set, the true-to-false
compare_exchange succeeds and the worker enters the drain loop with the
flag cleared; if the flag is clear, the compare_exchange fails, the wake
is spurious, and the worker goes back to waiting with the queue untouched
and nothing dequeued or recorded.  Conversely, any step that consumes one
of this worker's semaphore units ends in the drain phase if and only if
the flag was set, and a worker only ever enters the drain phase through a
successful true-to-false transition that consumes a wake. -/
theorem c4_wake_transition_gate (cap N M : Nat) (ts : Nat → Nat) (s : SemState) (j : Nat)
    (w : SemWorkerSt) (hw : s.workers.get? j = some w) (hph : w.phase = SemPhase.waiting)
    (hsem : 0 < w.sem) :
    (w.pending = true →
      SemStep cap N M ts s { s with workers := s.workers.set j { w with sem := w.sem - 1, pending := false, phase := SemPhase.draining } }) ∧
    (w.pending = false →
      SemStep cap N M ts s { s with workers := s.workers.set j { w with sem := w.sem - 1 } }) ∧
    (∀ s', SemStep cap N M ts s s' → ∀ w', s'.workers.get? j = some w' → w'.sem < w.sem →
      ((w'.phase = SemPhase.draining ↔ w.pending = true) ∧
       (w.pending = false → s'.queue = s.queue ∧ w' = { w with sem := w.sem - 1 }))) := by
  refine ⟨fun hp => SemStep.wakeOk s j w hw hph hsem hp,
          fun hp => SemStep.wakeSpur s j w hw hph hsem hp, ?_⟩
  intro s' hstep w' hw' hlt
  cases hstep with
  | prodEnqStep i hpc hi hcap =>
    rw [hw] at hw'
    injection hw' with h2
    rw [← h2] at hlt
    omega
  | prodDone i hpc hi =>
    rw [hw] at hw'
    injection hw' with h2
    rw [← h2] at hlt
    omega
  | printStep hpc =>
    rw [hw] at hw'
    injection hw' with h2
    rw [← h2] at hlt
    omega
  | sentEnqStep i hpc hi hcap =>
    rw [hw] at hw'
    injection hw' with h2
    rw [← h2] at hlt
    omega
  | sentDone i hpc hi =>
    rw [hw] at hw'
    injection hw' with h2
    rw [← h2] at hlt
    omega
  | prodSendStep i w2 hpc hw2 =>
    rcases eq_or_ne (i % N) j with h' | hne
    · subst h'
      rw [hw2] at hw
      injection hw with h2
      subst h2
      rw [getq_set_self _ _ _ (getq_lt _ _ _ hw2)] at hw'
      injection hw' with h3
      subst h3
      exfalso
      by_cases hp : w2.pending
      · simp [sendEffect, hp] at hlt
      · simp only [Bool.not_eq_true] at hp
        simp [sendEffect, hp] at hlt
    · rw [getq_set_ne _ _ _ _ hne] at hw'
      rw [hw] at hw'
      injection hw' with h2
      rw [← h2] at hlt
      omega
  | sentSendStep i w2 hpc hw2 =>
    rcases eq_or_ne ((M + i) % N) j with h' | hne
    · subst h'
      rw [hw2] at hw
      injection hw with h2
      subst h2
      rw [getq_set_self _ _ _ (getq_lt _ _ _ hw2)] at hw'
      injection hw' with h3
      subst h3
      exfalso
      by_cases hp : w2.pending
      · simp [sendEffect, hp] at hlt
      · simp only [Bool.not_eq_true] at hp
        simp [sendEffect, hp] at hlt
    · rw [getq_set_ne _ _ _ _ hne] at hw'
      rw [hw] at hw'
      injection hw' with h2
      rw [← h2] at hlt
      omega
  | wakeOk j2 w2 hw2 hph2 hsem2 hpend2 =>
    rcases eq_or_ne j2 j with h' | hne
    · subst h'
      rw [hw2] at hw
      injection hw with h2
      subst h2
      rw [getq_set_self _ _ _ (getq_lt _ _ _ hw2)] at hw'
      injection hw' with h3
      subst h3
      refine ⟨⟨fun _ => hpend2, fun _ => rfl⟩, ?_⟩
      intro hpf
      rw [hpend2] at hpf
      cases hpf
    · rw [getq_set_ne _ _ _ _ hne] at hw'
      rw [hw] at hw'
      injection hw' with h2
      rw [← h2] at hlt
      omega
  | wakeSpur j2 w2 hw2 hph2 hsem2 hpend2 =>
    rcases eq_or_ne j2 j with h' | hne
    · subst h'
      rw [hw2] at hw
      injection hw with h2
      subst h2
      rw [getq_set_self _ _ _ (getq_lt _ _ _ hw2)] at hw'
      injection hw' with h3
      subst h3
      constructor
      · constructor
        · intro hh
          rw [show ({ w2 with sem := w2.sem - 1 } : SemWorkerSt).phase = w2.phase from rfl, hph2] at hh
          cases hh
        · intro hh
          rw [hpend2] at hh
          cases hh
      · intro hpf
        exact ⟨rfl, rfl⟩
    · rw [getq_set_ne _ _ _ _ hne] at hw'
      rw [hw] at hw'
      injection hw' with h2
      rw [← h2] at hlt
      omega
  | deqRec j2 w2 v q hw2 hph2 hq hv =>
    rcases eq_or_ne j2 j with h' | hne
    · subst h'
      rw [hw2] at hw
      injection hw with h2
      subst h2
      rw [hph] at hph2
      cases hph2
    · rw [getq_set_ne _ _ _ _ hne] at hw'
      rw [hw] at hw'
      injection hw' with h2
      rw [← h2] at hlt
      omega
  | deqSent j2 w2 q hw2 hph2 hq =>
    rcases eq_or_ne j2 j with h' | hne
    · subst h'
      rw [hw2] at hw
      injection hw with h2
      subst h2
      rw [hph] at hph2
      cases hph2
    · rw [getq_set_ne _ _ _ _ hne] at hw'
      rw [hw] at hw'
      injection hw' with h2
      rw [← h2] at hlt
      omega
  | deqEmpty j2 w2 hw2 hph2 hq =>
    rcases eq_or_ne j2 j with h' | hne
    · subst h'
      rw [hw2] at hw
      injection hw with h2
      subst h2
      rw [hph] at hph2
      cases hph2
    · rw [getq_set_ne _ _ _ _ hne] at hw'
      rw [hw] at hw'
      injection hw' with h2
      rw [← h2] at hlt
      omega

/-- C4 witness: instantiated at a one-worker state with the flag set and
two semaphore units: the successful compare_exchange wake transition is
enabled and leads to the drain phase. -/
theorem c4_wake_transition_gate_witness :
    ((⟨0, 0, SemPhase.waiting, 2, true⟩ : SemWorkerSt).pending = true →
      SemStep queueCapacity 1 0 tsZero semW4
        { semW4 with workers := semW4.workers.set 0 ⟨0, 0, SemPhase.draining, 1, false⟩ }) ∧
    ((⟨0, 0, SemPhase.waiting, 2, true⟩ : SemWorkerSt).pending = false →
      SemStep queueCapacity 1 0 tsZero semW4
        { semW4 with workers := semW4.workers.set 0 ⟨0, 0, SemPhase.waiting, 1, true⟩ }) ∧
    (∀ s', SemStep queueCapacity 1 0 tsZero semW4 s' →
      ∀ w', s'.workers.get? 0 = some w' → w'.sem < 2 →
      ((w'.phase = SemPhase.draining ↔ (⟨0, 0, SemPhase.waiting, 2, true⟩ : SemWorkerSt).pending = true) ∧
       ((⟨0, 0, SemPhase.waiting, 2, true⟩ : SemWorkerSt).pending = false →
         s'.queue = semW4.queue ∧ w' = ⟨0, 0, SemPhase.waiting, 1, true⟩))) :=
  c4_wake_transition_gate queueCapacity 1 0 tsZero semW4 0
    ⟨0, 0, SemPhase.waiting, 2, true⟩ rfl rfl (by decide)

theorem semStuck_reach : SemReach queueCapacity 4 2 tsZero semStuck := by
  refine Relation.ReflTransGen.head (SemStep.prodEnqStep _ 0 rfl (by decide) (by decide)) ?_
  refine Relation.ReflTransGen.head (SemStep.prodSendStep _ 0 ⟨0, 0, SemPhase.waiting, 0, false⟩ rfl rfl) ?_
  refine Relation.ReflTransGen.head (SemStep.prodEnqStep _ 1 rfl (by decide) (by decide)) ?_
  refine Relation.ReflTransGen.head (SemStep.prodSendStep _ 1 ⟨0, 0, SemPhase.waiting, 0, false⟩ rfl rfl) ?_
  refine Relation.ReflTransGen.head (SemStep.prodDone _ 2 rfl (by decide)) ?_
  refine Relation.ReflTransGen.head (SemStep.printStep _ rfl) ?_
  refine Relation.ReflTransGen.head (SemStep.sentEnqStep _ 0 rfl (by decide) (by decide)) ?_
  refine Relation.ReflTransGen.head (SemStep.sentSendStep _ 0 ⟨0, 0, SemPhase.waiting, 0, false⟩ rfl rfl) ?_
  refine Relation.ReflTransGen.head (SemStep.wakeOk _ 2 ⟨0, 0, SemPhase.waiting, 1, true⟩ rfl rfl (by decide) rfl) ?_
  refine Relation.ReflTransGen.head (SemStep.deqRec _ 2 ⟨0, 0, SemPhase.draining, 0, false⟩ 0 [0, SENTINEL] rfl rfl rfl (by decide)) ?_
  refine Relation.ReflTransGen.head (SemStep.deqRec _ 2 ⟨1, 0, SemPhase.draining, 0, false⟩ 0 [SENTINEL] rfl rfl rfl (by decide)) ?_
  refine Relation.ReflTransGen.head (SemStep.deqSent _ 2 ⟨2, 0, SemPhase.draining, 0, false⟩ [] rfl rfl rfl) ?_
  refine Relation.ReflTransGen.head (SemStep.sentEnqStep _ 1 rfl (by decide) (by decide)) ?_
  refine Relation.ReflTransGen.head (SemStep.sentSendStep _ 1 ⟨0, 0, SemPhase.waiting, 0, false⟩ rfl rfl) ?_
  refine Relation.ReflTransGen.head (SemStep.wakeOk _ 3 ⟨0, 0, SemPhase.waiting, 1, true⟩ rfl rfl (by decide) rfl) ?_
  refine Relation.ReflTransGen.head (SemStep.deqSent _ 3 ⟨0, 0, SemPhase.draining, 0, false⟩ [] rfl rfl rfl) ?_
  refine Relation.ReflTransGen.head (SemStep.sentEnqStep _ 2 rfl (by decide) (by decide)) ?_
  refine Relation.ReflTransGen.head (SemStep.sentSendStep _ 2 ⟨0, 0, SemPhase.waiting, 1, true⟩ rfl rfl) ?_
  refine Relation.ReflTransGen.head (SemStep.wakeOk _ 1 ⟨0, 0, SemPhase.waiting, 1, true⟩ rfl rfl (by decide) rfl) ?_
  refine Relation.ReflTransGen.head (SemStep.deqSent _ 1 ⟨0, 0, SemPhase.draining, 0, false⟩ [] rfl rfl rfl) ?_
  refine Relation.ReflTransGen.head (SemStep.wakeOk _ 0 ⟨0, 0, SemPhase.waiting, 1, true⟩ rfl rfl (by decide) rfl) ?_
  refine Relation.ReflTransGen.head (SemStep.deqEmpty _ 0 ⟨0, 0, SemPhase.draining, 0, false⟩ rfl rfl rfl) ?_
  refine Relation.ReflTransGen.head (SemStep.sentEnqStep _ 3 rfl (by decide) (by decide)) ?_
  refine Relation.ReflTransGen.head (SemStep.sentSendStep _ 3 ⟨0, 1, SemPhase.done, 0, false⟩ rfl rfl) ?_
  refine Relation.ReflTransGen.head (SemStep.sentDone _ 4 rfl (by decide)) ?_
  exact Relation.ReflTransGen.refl

theorem semStuck_blocked : SemBlocked queueCapacity 4 2 tsZero semStuck := by
  intro s' h
  cases h with
  | prodEnqStep i hpc hi hcap => simp [semStuck] at hpc
  | prodDone i hpc hi => simp [semStuck] at hpc
  | prodSendStep i w hpc hw => simp [semStuck] at hpc
  | printStep hpc => simp [semStuck] at hpc
  | sentEnqStep i hpc hi hcap => simp [semStuck] at hpc
  | sentDone i hpc hi => simp [semStuck] at hpc
  | sentSendStep i w hpc hw => simp [semStuck] at hpc
  | wakeOk j w hw hph hsem hpend =>
    have hj : j < 4 := by simpa [semStuck] using getq_lt _ _ _ hw
    interval_cases j <;> (simp [semStuck] at hw; subst hw; simp_all)
  | wakeSpur j w hw hph hsem hpend =>
    have hj : j < 4 := by simpa [semStuck] using getq_lt _ _ _ hw
    interval_cases j <;> (simp [semStuck] at hw; subst hw; simp_all)
  | deqRec j w v q hw hph hq hv =>
    have hj : j < 4 := by simpa [semStuck] using getq_lt _ _ _ hw
    interval_cases j <;> (simp [semStuck] at hw; subst hw; simp_all)
  | deqSent j w q hw hph hq =>
    have hj : j < 4 := by simpa [semStuck] using getq_lt _ _ _ hw
    interval_cases j <;> (simp [semStuck] at hw; subst hw; simp_all)
  | deqEmpty j w hw hph hq =>
    have hj : j < 4 := by simpa [semStuck] using getq_lt _ _ _ hw
    interval_cases j <;> (simp [semStuck] at hw; subst hw; simp_all)

/-- C2 counterexample.  The claim that after the N round-robin sentinel
dispatches every worker reaches TERMINATED and join() returns is false for
the blocking-wait strategy: with N = 4 workers and M = 2 iterations there
is a reachable state in which worker 0 is parked forever in uv_sem_wait
(semaphore 0, pending flag clear, not done), workers 1-3 have terminated,
one sentinel is still queued, no thread can take any further step, and
every subsequent state equals this one — worker 0's join() never returns.
Schedule: worker 0's sentinel-phase send() is coalesced into its stale
production-phase wake, worker 1 consumes the sentinel meant for worker 0,
and worker 1's own sentinel is posted only after worker 1 terminated. -/
theorem c2_semworker_deadlock_counterexample :
    SemReach queueCapacity 4 2 tsZero semStuck ∧
    SemBlocked queueCapacity 4 2 tsZero semStuck ∧
    semStuck.workers.get? 0 = some ⟨0, 0, SemPhase.waiting, 0, false⟩ ∧
    countSent semStuck.queue = 1 ∧
    (∀ s', Relation.ReflTransGen (SemStep queueCapacity 4 2 tsZero) semStuck s' → s' = semStuck) := by
  refine ⟨semStuck_reach, semStuck_blocked, rfl, by decide, ?_⟩
  intro s' h
  induction h with
  | refl => rfl
  | tail hsteps hstep ih =>
    rw [ih] at hstep
    exact (semStuck_blocked _ hstep).elim

/-- C6 counterexample.  The claim that the queue capacity strictly exceeds
the iteration count is false for the build-time constants: the queue is
constructed with capacity 8 * 1024 * 1024 = 8388608, which does not exceed
NUM_ITERATIONS = 10000000. -/
theorem c6_capacity_not_exceeding_iterations : ¬ NUM_ITERATIONS < queueCapacity := by
  decide

/-- C6 (amended).  The fixed build-time parameters violate the stated
run-validity precondition: the queue capacity (8388608) is strictly
smaller than the iteration count (10000000). -/
theorem c6_capacity_below_iterations :
    queueCapacity < NUM_ITERATIONS ∧ queueCapacity = 8388608 ∧ NUM_ITERATIONS = 10000000 := by
  refine ⟨by decide, by decide, by decide⟩

/-- C7 counterexample.  The highest trackable value of every worker's
histogram is not one hour in nanoseconds (3600000000000): the code sets
3600LL * 1000LL * 1000LL = 3600000000. -/
theorem c7_histogram_ceiling_not_one_hour :
    ¬ baseWorkerHistogram.highest = 3600000000000 := by
  decide

/-- C7 (amended).  Every worker's LatencyRecorder is initialized with a
trackable range of 1 nanosecond to 3600000000 nanoseconds (3.6 seconds,
not one hour) at 3 significant digits: hdr_init(1, 3600LL*1000LL*1000LL,
3, histogram). -/
theorem c7_histogram_range :
    baseWorkerHistogram = ⟨1, 3600000000, 3⟩ ∧ HIGHEST_TRACKABLE_VALUE = 3600000000 := by
  refine ⟨by decide, by decide⟩

theorem next_pow_2_go_succ (num fuel next i : Nat) :
    next_pow_2_go num (fuel + 1) next i
      = if next < num then
          (if i < 64 then next_pow_2_go num fuel (2 ^ i) (i + 1) else none)
        else some next := rfl

theorem next_pow_2_go_spec (num : Nat) (hnum : num ≤ 2 ^ 63) : ∀ fuel i,
    num ≤ 2 ^ (i + fuel) → (∀ j, j < i → 2 ^ j < num) →
    ∃ k, next_pow_2_go num (fuel + 1) (2 ^ i) (i + 1) = some (2 ^ k) ∧ num ≤ 2 ^ k ∧
      ∀ j, j < k → 2 ^ j < num := by
  intro fuel
  induction fuel with
  | zero =>
    intro i hle hlt
    have hle' : num ≤ 2 ^ i := by simpa using hle
    refine ⟨i, ?_, hle', hlt⟩
    rw [next_pow_2_go_succ, if_neg (by omega)]
  | succ m ih =>
    intro i hle hlt
    by_cases hc : 2 ^ i < num
    · have hi63 : i < 63 := by
        by_contra hcon
        push_neg at hcon
        have hmono : (2 : Nat) ^ 63 ≤ 2 ^ i := Nat.pow_le_pow_right (by omega) hcon
        omega
      rw [next_pow_2_go_succ, if_pos hc, if_pos (by omega)]
      apply ih (i + 1)
      · have harith : i + 1 + m = i + (m + 1) := by omega
        rw [harith]
        exact hle
      · intro j hj
        rcases Nat.lt_or_ge j i with h' | h'
        · exact hlt j h'
        · have hji : j = i := by omega
          rw [hji]
          exact hc
    · refine ⟨i, ?_, Nat.le_of_not_lt hc, hlt⟩
      rw [next_pow_2_go_succ, if_neg hc]

theorem next_pow_2_go_ub (num : Nat) (hnum : 2 ^ 63 < num) : ∀ fuel i, i ≤ 63 →
    63 - i ≤ fuel → next_pow_2_go num (fuel + 1) (2 ^ i) (i + 1) = none := by
  intro fuel
  induction fuel with
  | zero =>
    intro i hi hfi
    have hi63 : i = 63 := by omega
    subst hi63
    rw [next_pow_2_go_succ, if_pos hnum, if_neg (by omega)]
  | succ m ih =>
    intro i hi hfi
    rcases Nat.lt_or_ge i 63 with h' | h'
    · have hc : (2 : Nat) ^ i < num := by
        have hmono : (2 : Nat) ^ i ≤ 2 ^ 63 := Nat.pow_le_pow_right (by omega) (by omega)
        omega
      rw [next_pow_2_go_succ, if_pos hc, if_pos (by omega)]
      exact ih (i + 1) (by omega) (by omega)
    · have hi63 : i = 63 := by omega
      subst hi63
      rw [next_pow_2_go_succ, if_pos hnum, if_neg (by omega)]

/-- C10 counterexample.  The claim that next_pow_2 returns the smallest
power of two at least max(num, 2) for every input is false on the size_t
source: at num = 2^63 + 1 the smallest such power is 2^64, but the loop
reaches next = 2^63 < num with i = 64 and executes the undefined
out-of-range shift 1 << 64, returning no value at all (and 2^64 is not
representable in size_t). -/
theorem c10_next_pow_2_ub_counterexample :
    next_pow_2 (2 ^ 63 + 1) = none ∧ next_pow_2 (2 ^ 63 + 1) ≠ some (2 ^ 64) := by
  have hnone : next_pow_2 (2 ^ 63 + 1) = none := by
    show next_pow_2_go (2 ^ 63 + 1) (69 + 1) 2 0 = none
    rw [next_pow_2_go_succ, if_pos (by decide), if_pos (by decide)]
    exact next_pow_2_go_ub (2 ^ 63 + 1) (by decide) 68 0 (by decide) (by decide)
  refine ⟨hnone, ?_⟩
  rw [hnone]
  simp

/-- C10 (amended).  For every size_t input num ≤ 2^63 — exactly the inputs
on which every shift 1 << i executed by the loop has i < 64 —
cass::next_pow_2 returns the smallest power of two that is at least
max(num, 2): the result is a power of two, bounds max(num, 2) from above,
and every smaller power of two is below max(num, 2).  In particular it
returns 2 on inputs 0, 1 and 2, and returns num itself whenever num is a
power of two with 2 ≤ num ≤ 2^63.  For size_t inputs num > 2^63 the loop
executes the undefined shift 1 << 64 and returns no value. -/
theorem c10_next_pow_2_least :
    (∀ num : Nat, num ≤ 2 ^ 63 → ∃ k, next_pow_2 num = some (2 ^ k) ∧
      max num 2 ≤ 2 ^ k ∧ ∀ j, j < k → 2 ^ j < max num 2) ∧
    (next_pow_2 0 = some 2 ∧ next_pow_2 1 = some 2 ∧ next_pow_2 2 = some 2) ∧
    (∀ k, k + 1 ≤ 63 → next_pow_2 (2 ^ (k + 1)) = some (2 ^ (k + 1))) ∧
    (∀ num, 2 ^ 63 < num → num < 2 ^ 64 → next_pow_2 num = none) := by
  have hmain : ∀ num : Nat, num ≤ 2 ^ 63 → ∃ k, next_pow_2 num = some (2 ^ k) ∧
      max num 2 ≤ 2 ^ k ∧ ∀ j, j < k → 2 ^ j < max num 2 := by
    intro num hnum
    by_cases h2 : 2 < num
    · have hb : num ≤ 2 ^ (0 + 68) := by
        have hmono : (2 : Nat) ^ 63 ≤ 2 ^ (0 + 68) := Nat.pow_le_pow_right (by omega) (by omega)
        omega
      obtain ⟨k, hk, hle, hmin⟩ := next_pow_2_go_spec num hnum 68 0 hb
        (by intro j hj; omega)
      have hmax : max num 2 = num := Nat.max_eq_left (by omega)
      refine ⟨k, ?_, ?_, ?_⟩
      · show next_pow_2_go num (69 + 1) 2 0 = some (2 ^ k)
        rw [next_pow_2_go_succ, if_pos h2, if_pos (by omega)]
        exact hk
      · rw [hmax]
        exact hle
      · intro j hj
        rw [hmax]
        exact hmin j hj
    · have heq : next_pow_2 num = some 2 := by
        show next_pow_2_go num (69 + 1) 2 0 = some 2
        rw [next_pow_2_go_succ, if_neg h2]
      have hmax : max num 2 = 2 := Nat.max_eq_right (by omega)
      refine ⟨1, by rw [heq]; decide, ?_, ?_⟩
      · rw [hmax]
        decide
      · intro j hj
        interval_cases j
        rw [hmax]
        decide
  refine ⟨hmain, ⟨by decide, by decide, by decide⟩, ?_, ?_⟩
  · intro k hk63
    have hpow : (2 : Nat) ^ (k + 1) ≤ 2 ^ 63 := Nat.pow_le_pow_right (by omega) hk63
    obtain ⟨m, hm, hle, hmin⟩ := hmain (2 ^ (k + 1)) hpow
    have h2le : (2 : Nat) ≤ 2 ^ (k + 1) := by
      have h := Nat.pow_le_pow_right (show 1 ≤ 2 by omega) (show 1 ≤ k + 1 by omega)
      simpa using h
    have hmax : max (2 ^ (k + 1)) 2 = 2 ^ (k + 1) := Nat.max_eq_left h2le
    rw [hmax] at hle hmin
    have hmk : m = k + 1 := by
      rcases Nat.lt_trichotomy m (k + 1) with h' | h' | h'
      · exfalso
        have hlt2 : (2 : Nat) ^ m < 2 ^ (k + 1) := Nat.pow_lt_pow_right (by omega) h'
        omega
      · exact h'
      · exfalso
        have := hmin (k + 1) h'
        omega
    rw [hm, hmk]
  · intro num h1 h2
    have h2n : 2 < num := by
      have hh : (2 : Nat) < 2 ^ 63 := by decide
      omega
    show next_pow_2_go num (69 + 1) 2 0 = none
    rw [next_pow_2_go_succ, if_pos h2n, if_pos (by omega)]
    exact next_pow_2_go_ub num h1 68 0 (by omega) (by omega)

/-- C10 witness: next_pow_2 maps the power of two 8 to itself and 0 to 2,
and hits the undefined shift on the first size_t input above 2^63. -/
theorem c10_next_pow_2_witness :
    next_pow_2 8 = some 8 ∧ next_pow_2 0 = some 2 ∧ next_pow_2 (2 ^ 63 + 1) = none :=
  ⟨c10_next_pow_2_least.2.2.1 2 (by decide), c10_next_pow_2_least.2.1.1,
   c10_next_pow_2_least.2.2.2 (2 ^ 63 + 1) (by decide) (by decide)⟩

end Workers
